import Mathlib

/-!
Verification development for the PongPush repository.

Shallow embedding of:
  * the photo-upload business logic (`ValidationService`, `UploadService`,
    `GitHubApiClient`) from `src/services/`;
  * the CI pipeline checkers (`check-pipeline.ts`, `check-pipeline-api.ts`);
  * the git retry wrappers (`.github/workflows-ts/utils/git.ts`);
  * the deployment verifier (`verify-deployment.ts`);
  * the log-cleanup utilities (`log-cleanup` module).

External effects (file system, HTTP, the GitHub API, the clock) are modelled
as explicit oracle parameters; loops become recursions on an explicit
remaining-attempts counter matching the source's loop bounds.
-/

namespace PongPush

/-! ## String helpers modelling JavaScript primitives -/

/-- Does `pat` match at the head of `l`? -/
def headMatches : List Char → List Char → Bool
  | [], _ => true
  | _ :: _, [] => false
  | p :: ps, c :: cs => p = c && headMatches ps cs

/-- Does `pat` match at some position of `l`? -/
def includesAux (pat : List Char) : List Char → Bool
  | [] => pat.isEmpty
  | c :: rest => headMatches pat (c :: rest) || includesAux pat rest

/-- JavaScript `s.includes(pat)`: `pat` occurs as a contiguous substring of `s`. -/
def strIncludes (s pat : String) : Bool :=
  includesAux pat.toList s.toList

/-- Index of the last occurrence of character `c` in `l` (JS `lastIndexOf`,
    `none` standing for `-1`). -/
def lastIndexOfChar (l : List Char) (c : Char) : Option Nat :=
  ((List.range l.length).filter (fun i => l.getD i ' ' = c)).getLast?

/-- JS `s.toLowerCase()` (ASCII case folding). -/
def jsToLower (s : String) : String :=
  String.mk (s.toList.map Char.toLower)

/-- JS `s.trim()`: strip leading and trailing whitespace. -/
def jsTrim (s : String) : String :=
  String.mk (((s.toList.dropWhile Char.isWhitespace).reverse.dropWhile Char.isWhitespace).reverse)

/-- Splitting pass of JS `s.split(sep)` for a one-character separator:
    `acc` holds the reversed current field. -/
def splitOnAux (p : Char → Bool) : List Char → List Char → List (List Char)
  | acc, [] => [acc.reverse]
  | acc, c :: rest =>
      if p c then acc.reverse :: splitOnAux p [] rest
      else splitOnAux p (c :: acc) rest

/-- JS `s.split(sep)` where `p` recognizes the separator character. -/
def jsSplit (s : String) (p : Char → Bool) : List String :=
  (splitOnAux p [] s.toList).map String.mk

/-- JS `s.endsWith(suffix)`. -/
def jsEndsWith (s suf : String) : Bool :=
  headMatches suf.toList.reverse s.toList.reverse

/-! ## Data model (`src/models`, `src/config/AppConfig.ts`) -/

/-- The browser `File` value carried by an `UploadRequest`. -/
structure JsFile where
  name : String
  size : Nat
  type : String
  deriving Repr, DecidableEq

/-- `AppConfig.github`. -/
structure GithubConfig where
  owner : String
  repository : String
  branch : String
  uploadPath : String
  token : Option String
  deriving Repr, DecidableEq

/-- `AppConfig.upload`. -/
structure UploadConfig where
  maxSizeBytes : Nat
  allowedExtensions : List String
  allowedMimeTypes : List String
  deriving Repr, DecidableEq

/-- `AppConfig`. -/
structure AppConfig where
  github : GithubConfig
  upload : UploadConfig
  deriving Repr, DecidableEq

/-- `ValidationError` (`src/models/ValidationResult.ts`). -/
structure ValidationError where
  field : String
  message : String
  code : String
  deriving Repr, DecidableEq

/-- `ValidationResult`. -/
structure ValidationResult where
  isValid : Bool
  errors : List ValidationError
  deriving Repr, DecidableEq

/-- `UploadRequest` (`file` may be `null` in JS, hence `Option`). -/
structure UploadRequest where
  file : Option JsFile
  deriving Repr, DecidableEq

/-- `UploadResponse.data`. -/
structure UploadData where
  fileName : String
  filePath : String
  url : String
  sha : String
  deriving Repr, DecidableEq

/-- `UploadResponse.error`. -/
structure UploadErrorInfo where
  code : String
  details : String
  deriving Repr, DecidableEq

/-- `UploadResponse` (`src/models/UploadResponse.ts`). -/
structure UploadResponse where
  success : Bool
  message : String
  data : Option UploadData
  error : Option UploadErrorInfo
  deriving Repr, DecidableEq

/-! ## `ValidationService` (`src/services/ValidationService.ts`) -/

/-- `getFileExtension`: substring from the last `'.'` (inclusive), lowercased;
    `""` when there is no dot. -/
def getFileExtension (filename : String) : String :=
  match lastIndexOfChar filename.toList '.' with
  | none => ""
  | some i => jsToLower (String.mk (filename.toList.drop i))

/-- `validateFile`.  The `file` argument is `none` when the JS value is
    null/undefined (the `!file` early return). -/
def validateFile (config : AppConfig) (file : Option JsFile) : ValidationResult :=
  match file with
  | none =>
      { isValid := false
        errors := [{ field := "file", message := "Keine Datei ausgewählt", code := "FILE_REQUIRED" }] }
  | some f =>
      let sizeErrors : List ValidationError :=
        if f.size > config.upload.maxSizeBytes then
          let maxSizeMB := config.upload.maxSizeBytes / (1024 * 1024)
          [{ field := "file"
             message := "Datei ist zu groß (Maximum " ++ toString maxSizeMB ++ "MB)"
             code := "FILE_TOO_LARGE" }]
        else []
      let extErrors : List ValidationError :=
        if (config.upload.allowedExtensions.contains (getFileExtension f.name)) then []
        else
          [{ field := "file"
             message := "Dateiformat nicht erlaubt. Erlaubt: " ++
               String.intercalate ", " config.upload.allowedExtensions
             code := "INVALID_FILE_TYPE" }]
      let mimeErrors : List ValidationError :=
        if (config.upload.allowedMimeTypes.contains f.type) then []
        else
          [{ field := "file", message := "Nur Bilddateien sind erlaubt", code := "INVALID_MIME_TYPE" }]
      let errors := sizeErrors ++ extErrors ++ mimeErrors
      { isValid := errors.isEmpty, errors := errors }

/-- Single pass over the characters implementing JS `replace(/\s+/g, '_')`:
    the flag records whether the previous character was whitespace, so a
    maximal whitespace run contributes exactly one `'_'`. -/
def collapseWsAux : Bool → List Char → List Char
  | _, [] => []
  | prevWs, c :: rest =>
      if c.isWhitespace then
        if prevWs then collapseWsAux true rest
        else '_' :: collapseWsAux true rest
      else c :: collapseWsAux false rest

/-- Collapse every maximal run of whitespace into a single `'_'`
    (JS `replace(/\s+/g, '_')`). -/
def collapseWhitespace (l : List Char) : List Char :=
  collapseWsAux false l

/-- The per-character German umlaut substitutions of `sanitizeFilename`. -/
def umlautSubst (c : Char) : List Char :=
  if c = 'ä' then ['a', 'e']
  else if c = 'ö' then ['o', 'e']
  else if c = 'ü' then ['u', 'e']
  else if c = 'ß' then ['s', 's']
  else if c = 'Ä' then ['A', 'e']
  else if c = 'Ö' then ['O', 'e']
  else if c = 'Ü' then ['U', 'e']
  else [c]

/-- The character class `[a-zA-Z0-9._-]` kept by `sanitizeFilename`. -/
def isSafeChar (c : Char) : Bool :=
  c.isAlpha || c.isDigit || c = '.' || c = '_' || c = '-'

/-- `sanitizeFilename`. -/
def sanitizeFilename (filename : String) : String :=
  String.mk ((((collapseWhitespace filename.toList).flatMap umlautSubst).filter isSafeChar))

/-- JS `iso.replace(/[:.]/g, '-')`. -/
def jsReplaceColonDot (s : String) : String :=
  String.mk (s.toList.map (fun c => if c = ':' || c = '.' then '-' else c))

/-- `generateFilename`; `nowIso` models `new Date().toISOString()`. -/
def generateFilename (nowIso : String) (originalFilename : String) : String :=
  let isoR := jsReplaceColonDot nowIso
  let parts := jsSplit isoR (· = 'T')
  let timestamp :=
    parts.getD 0 "" ++ "_" ++ ((jsSplit (parts.getD 1 "") (· = '-')).getD 0 "")
  let extension := getFileExtension originalFilename
  let nameWithoutExt :=
    match lastIndexOfChar originalFilename.toList '.' with
    | none => originalFilename      -- substring(0, -1) is "", falsy, so `|| originalFilename`
    | some 0 => originalFilename    -- substring(0, 0) is "", falsy, so `|| originalFilename`
    | some i => String.mk (originalFilename.toList.take i)
  "spielbericht_" ++ timestamp ++ "_" ++ sanitizeFilename nameWithoutExt ++ extension

/-! ## Base64 (`UploadService.arrayBufferToBase64`) -/

/-- The base64 alphabet. -/
def base64Alphabet : List Char :=
  "ABCDEFGHIJKLMNOPQRSTUVWXYZabcdefghijklmnopqrstuvwxyz0123456789+/".toList

/-- Character for a 6-bit value. -/
def base64Char (n : Nat) : Char :=
  base64Alphabet.getD n 'A'

/-- Standard base64 of a byte sequence, three bytes at a time with `=` padding
    (what `window.btoa` / `Buffer.toString('base64')` compute). -/
def base64Encode : List Nat → List Char
  | [] => []
  | [b0] =>
      [base64Char (b0 / 4), base64Char (b0 % 4 * 16), '=', '=']
  | [b0, b1] =>
      [base64Char (b0 / 4), base64Char (b0 % 4 * 16 + b1 / 16),
       base64Char (b1 % 16 * 4), '=']
  | b0 :: b1 :: b2 :: rest =>
      base64Char (b0 / 4) :: base64Char (b0 % 4 * 16 + b1 / 16) ::
      base64Char (b1 % 16 * 4 + b2 / 64) :: base64Char (b2 % 64) ::
      base64Encode rest

/-- `arrayBufferToBase64` as a string. -/
def arrayBufferToBase64 (buffer : List Nat) : String :=
  String.mk (base64Encode buffer)

/-! ## `GitHubApiClient` (`src/services/GitHubApiClient.ts`) -/

/-- Argument record of one `octokit.repos.createOrUpdateFileContents` call. -/
structure CreateOrUpdateFileArgs where
  owner : String
  repo : String
  path : String
  message : String
  content : String
  branch : String
  deriving Repr, DecidableEq

/-- `response.data.content` of the Contents API (the fields the client reads). -/
structure ContentsApiContent where
  sha : Option String
  downloadUrl : Option String
  htmlUrl : Option String
  deriving Repr, DecidableEq

/-- `GitHubUploadResult`. -/
structure GitHubUploadResult where
  sha : String
  url : String
  htmlUrl : String
  deriving Repr, DecidableEq

/-- Oracle for the GitHub Contents API: either a response or a thrown error
    message. -/
def ContentsApi : Type := CreateOrUpdateFileArgs → Except String ContentsApiContent

/-- `GitHubApiClient.uploadFile`: one Contents-API call; errors are re-thrown
    wrapped as `GitHub API error: ...`.  Returns the result together with the
    list of API calls issued. -/
def uploadFile (api : ContentsApi) (owner repo : String)
    (filePath content message branch : String) :
    Except String GitHubUploadResult × List CreateOrUpdateFileArgs :=
  let args : CreateOrUpdateFileArgs :=
    { owner := owner, repo := repo, path := filePath,
      message := message, content := content, branch := branch }
  match api args with
  | .error e => (.error ("GitHub API error: " ++ e), [args])
  | .ok resp =>
      (.ok { sha := resp.sha.getD "", url := resp.downloadUrl.getD "",
             htmlUrl := resp.htmlUrl.getD "" }, [args])

/-! ## `UploadService` (`src/services/UploadService.ts`) -/

/-- The external effects `upload` depends on: the outcome of
    `file.arrayBuffer()`, whether a base64 encoder is available in the
    environment, the current ISO timestamp, and the Contents API. -/
structure UploadEnv where
  readFile : Except String (List Nat)
  b64Supported : Bool
  nowIso : String
  api : ContentsApi

/-- JS `error.message || 'Unbekannter Fehler'` (empty string is falsy). -/
def errDetails (msg : String) : String :=
  if msg = "" then "Unbekannter Fehler" else msg

/-- The `catch` branch of `upload`. -/
def uploadErrorResponse (msg : String) : UploadResponse :=
  { success := false
    message := "Upload fehlgeschlagen"
    data := none
    error := some { code := "UPLOAD_ERROR", details := errDetails msg } }

/-- `UploadService.upload`.  Returns the response together with the list of
    Contents-API calls issued.  The `request.file = none` branch after a
    passing validation cannot occur (validation rejects a missing file); it is
    modelled as the TypeError JS would throw on `null.arrayBuffer()`, caught
    by the surrounding `catch`. -/
def upload (config : AppConfig) (env : UploadEnv) (request : UploadRequest) :
    UploadResponse × List CreateOrUpdateFileArgs :=
  let validationResult := validateFile config request.file
  if validationResult.isValid = false then
    ({ success := false
       message := "Validierung fehlgeschlagen"
       data := none
       error := some
         { code := "VALIDATION_ERROR"
           details := String.intercalate ", " (validationResult.errors.map (·.message)) } }, [])
  else
    match request.file with
    | none => (uploadErrorResponse "null is not an object", [])
    | some f =>
      match env.readFile with
      | .error e => (uploadErrorResponse e, [])
      | .ok fileContent =>
        let fileName := generateFilename env.nowIso f.name
        let filePath := config.github.uploadPath ++ "/" ++ fileName
        if env.b64Supported = false then
          (uploadErrorResponse "Base64 encoding not supported in this environment", [])
        else
          let base64Content := arrayBufferToBase64 fileContent
          let (result, calls) :=
            uploadFile env.api config.github.owner config.github.repository
              filePath base64Content ("Upload: " ++ fileName) config.github.branch
          match result with
          | .error e => (uploadErrorResponse e, calls)
          | .ok r =>
              ({ success := true
                 message := "Spielbericht erfolgreich hochgeladen!"
                 data := some
                   { fileName := fileName, filePath := filePath,
                     url := r.htmlUrl, sha := r.sha }
                 error := none }, calls)

/-! ## Pipeline status checker (`src/workflows/check-pipeline.ts`) -/

/-- Result of trying to read a file: it may be absent (`existsSync` false),
    present but unreadable (`readFileSync` throws), or readable. -/
inductive FileEntry
  | absent
  | unreadable
  | readable (content : String)
  deriving Repr, DecidableEq

/-- A file system snapshot: what each path holds. -/
def FS : Type := String → FileEntry

/-- `JobStatus.status` values. -/
inductive JobState
  | success
  | failed
  | pending
  deriving Repr, DecidableEq

/-- `JobStatus`. -/
structure JobStatus where
  name : String
  status : JobState
  statusFile : Option String
  deriving Repr, DecidableEq

/-- `EXPECTED_WORKFLOWS`. -/
def EXPECTED_WORKFLOWS : List String := ["build", "e2e-local", "auto-pr"]

/-- JS `sha.substring(0, 7)`. -/
def shortShaOf (sha : String) : String :=
  String.mk (sha.toList.take 7)

/-- The semaphore file path `ci-logs/<short-sha>/<job>.status`. -/
def statusFilePath (sha workflowName : String) : String :=
  "ci-logs/" ++ shortShaOf sha ++ "/" ++ workflowName ++ ".status"

/-- The loop body of `getJobStatuses` for one expected workflow name. -/
def jobStatusFor (fs : FS) (sha workflowName : String) : JobStatus :=
  let statusFile := statusFilePath sha workflowName
  match fs statusFile with
  | .absent => { name := workflowName, status := .pending, statusFile := none }
  | .unreadable => { name := workflowName, status := .pending, statusFile := none }
  | .readable content =>
      let status := if jsTrim content = "success" then JobState.success else JobState.failed
      { name := workflowName, status := status, statusFile := some statusFile }

/-- `getJobStatuses`. -/
def getJobStatuses (fs : FS) (sha : String) : List JobStatus :=
  EXPECTED_WORKFLOWS.map (jobStatusFor fs sha)

/-- The jobs a status list reports as pending. -/
def pendingOf (statuses : List JobStatus) : List JobStatus :=
  statuses.filter (fun s => s.status = .pending)

/-- `waitForAllJobs`, poll number `k` (ten seconds of elapsed time per poll,
    `obs k` being the job statuses observed at the `k`-th poll).  Returns the
    statuses of the poll at which the loop exits. -/
def waitForAllJobsAux (obs : Nat → List JobStatus) (timeoutSeconds : Nat)
    (skipWait : Bool) (k : Nat) : List JobStatus :=
  let statuses := obs k
  if (pendingOf statuses).isEmpty then statuses
  else if skipWait then statuses
  else if timeoutSeconds ≤ 10 * k then statuses
  else waitForAllJobsAux obs timeoutSeconds skipWait (k + 1)
termination_by timeoutSeconds - 10 * k
decreasing_by omega

/-- `waitForAllJobs` starting at the first poll. -/
def waitForAllJobs (obs : Nat → List JobStatus) (timeoutSeconds : Nat)
    (skipWait : Bool) : List JobStatus :=
  waitForAllJobsAux obs timeoutSeconds skipWait 0

/-- Directory-listing side of the file system, for `findLogFiles` and
    `cleanupOldLogs`: `existsSync`, `readdirSync` (`none` = throws) and
    `readdirSync` with file types (name, isDirectory). -/
structure DirFS where
  existsSync : String → Bool
  readdirSync : String → Option (List String)
  readdirEntries : String → Option (List (String × Bool))

/-- Does a directory entry name look like a log file? -/
def isLogFileName (f : String) : Bool :=
  jsEndsWith f ".log" || jsEndsWith f ".txt"

/-- `findLogFiles`.  With a SHA it lists `ci-logs/<short-sha>`; an unreadable
    commit directory there throws (`Except.error`).  Without a SHA it scans
    every subdirectory, swallowing read errors. -/
def findLogFiles (dfs : DirFS) (sha : Option String) : Except String (List String) :=
  if dfs.existsSync "ci-logs" = false then .ok []
  else
    match sha with
    | some s =>
        let commitDir := "ci-logs/" ++ shortShaOf s
        if dfs.existsSync commitDir then
          match dfs.readdirSync commitDir with
          | none => .error "readdir failed"
          | some files =>
              .ok ((files.filter isLogFileName).map (fun f => commitDir ++ "/" ++ f))
        else .ok []
    | none =>
        match dfs.readdirEntries "ci-logs" with
        | none => .ok []
        | some entries =>
            let dirs := (entries.filter (·.2)).map (·.1)
            .ok (dirs.flatMap fun dir =>
              let commitDir := "ci-logs/" ++ dir
              match dfs.readdirSync commitDir with
              | none => []
              | some files =>
                  (files.filter isLogFileName).map (fun f => commitDir ++ "/" ++ f))

/-- `CheckResult`. -/
structure CheckResult where
  success : Bool
  duration : Nat
  conclusion : String
  logFiles : List String
  errors : List String
  deriving Repr, DecidableEq

/-- The final-result classification of `checkPipeline` (lines 256–335),
    given the job statuses returned by `waitForAllJobs`. -/
def classifyResult (jobStatuses : List JobStatus) (duration : Nat)
    (logFiles : List String) : CheckResult :=
  let failed := jobStatuses.filter (fun j => j.status = .failed)
  let pending := jobStatuses.filter (fun j => j.status = .pending)
  let allComplete := pending.length = 0
  let allSuccess := allComplete ∧ failed.length = 0
  if allSuccess then
    { success := true, duration := duration, conclusion := "success",
      logFiles := logFiles, errors := [] }
  else if failed.length > 0 then
    { success := false, duration := duration, conclusion := "failure",
      logFiles := logFiles,
      errors := failed.map (fun j => "Job '" ++ j.name ++ "' failed") }
  else if pending.length > 0 then
    { success := false, duration := duration, conclusion := "pending",
      logFiles := logFiles,
      errors := pending.map (fun j => "Job '" ++ j.name ++ "' did not complete") }
  else
    { success := false, duration := duration, conclusion := "unknown",
      logFiles := logFiles, errors := ["Unknown pipeline state"] }

/-- `checkPipeline`: wait for the jobs, collect log files, classify.
    `obs k` is the file-system snapshot at the `k`-th poll; `duration` models
    the wall-clock duration.  An exception from `findLogFiles` propagates to
    the top-level catch. -/
def checkPipeline (obs : Nat → FS) (dfs : DirFS) (sha : String)
    (skipWait : Bool) (timeoutSeconds : Nat) (duration : Nat) :
    Except String CheckResult :=
  let jobStatuses := waitForAllJobs (fun k => getJobStatuses (obs k) sha) timeoutSeconds skipWait
  match findLogFiles dfs (some sha) with
  | .error e => .error e
  | .ok logFiles => .ok (classifyResult jobStatuses duration logFiles)

/-- The exit-code wiring: `process.exit(result.success ? 0 : 1)`, and
    `process.exit(1)` from the `.catch`. -/
def checkPipelineExitCode : Except String CheckResult → Nat
  | .error _ => 1
  | .ok r => if r.success then 0 else 1

/-! ## API-based pipeline checker (`src/workflows/check-pipeline-api.ts`) -/

/-- A workflow run as returned by the GitHub API (the fields the waiting loop
    reads). -/
structure WorkflowRun where
  name : String
  status : String
  conclusion : Option String
  deriving Repr, DecidableEq

/-- A run counts as in progress when its status is `in_progress`, `queued`
    or `waiting`. -/
def isInProgress (r : WorkflowRun) : Bool :=
  r.status = "in_progress" || r.status = "queued" || r.status = "waiting"

/-- `waitForWorkflows`, poll number `k` (`obs k` the runs fetched at the
    `k`-th poll, ten seconds of elapsed time per poll). -/
def waitForWorkflowsAux (obs : Nat → List WorkflowRun) (timeoutSeconds : Nat)
    (skipWait : Bool) (k : Nat) : List WorkflowRun :=
  let runs := obs k
  if runs.isEmpty then
    -- `if (skipWait || elapsed >= timeoutSeconds) return []`, with `||` expanded
    if skipWait then []
    else if timeoutSeconds ≤ 10 * k then []
    else waitForWorkflowsAux obs timeoutSeconds skipWait (k + 1)
  else
    let inProgress := runs.filter isInProgress
    if inProgress.isEmpty then runs
    else if skipWait then runs
    else if timeoutSeconds ≤ 10 * k then runs
    else waitForWorkflowsAux obs timeoutSeconds skipWait (k + 1)
termination_by timeoutSeconds - 10 * k
decreasing_by
  · omega
  · omega

/-- `waitForWorkflows` starting at the first poll. -/
def waitForWorkflows (obs : Nat → List WorkflowRun) (timeoutSeconds : Nat)
    (skipWait : Bool) : List WorkflowRun :=
  waitForWorkflowsAux obs timeoutSeconds skipWait 0

/-! ## Git retry wrappers (`.github/workflows-ts/utils/git.ts`) -/

/-- The backoff table `[2000, 4000, 8000, 16000]`. -/
def backoffDelays : List Nat := [2000, 4000, 8000, 16000]

/-- `errorStr.includes('Connection') || errorStr.includes('timeout') ||
    errorStr.includes('reset')`. -/
def isNetworkError (e : String) : Bool :=
  strIncludes e "Connection" || strIncludes e "timeout" || strIncludes e "reset"

/-- Trace of one `push`/`fetch` call: the returned/thrown outcome, the number
    of attempts made, and the delays slept between attempts. -/
structure RetryTrace where
  result : Except String Bool
  attempts : Nat
  sleeps : List Nat
  deriving Repr

/-- The loop body of `GitClient.push`.  `outcome k` is the result of the
    `git push` on attempt `k`; `remaining` counts the retries still allowed
    (`remaining = maxRetries - attempt`, so `attempt < maxRetries` iff
    `remaining > 0`). -/
def pushGo (outcome : Nat → Except String Unit) : Nat → Nat → RetryTrace
  | attempt, remaining =>
    match outcome attempt with
    | .ok _ => { result := .ok true, attempts := 1, sleeps := [] }
    | .error e =>
      if strIncludes e "403" then
        { result := .error e, attempts := 1, sleeps := [] }
      else if isNetworkError e then
        match remaining with
        | 0 => { result := .error e, attempts := 1, sleeps := [] }
        | r + 1 =>
            let rest := pushGo outcome (attempt + 1) r
            { result := rest.result, attempts := rest.attempts + 1,
              sleeps := backoffDelays.getD attempt 0 :: rest.sleeps }
      else
        { result := .error e, attempts := 1, sleeps := [] }

/-- `GitClient.push` with its default `maxRetries = 4`. -/
def gitPush (outcome : Nat → Except String Unit) (maxRetries : Nat := 4) : RetryTrace :=
  pushGo outcome 0 maxRetries

/-- The loop body of `GitClient.fetch`: identical to `pushGo` except that it
    has no special 403 handling. -/
def fetchGo (outcome : Nat → Except String Unit) : Nat → Nat → RetryTrace
  | attempt, remaining =>
    match outcome attempt with
    | .ok _ => { result := .ok true, attempts := 1, sleeps := [] }
    | .error e =>
      if isNetworkError e then
        match remaining with
        | 0 => { result := .error e, attempts := 1, sleeps := [] }
        | r + 1 =>
            let rest := fetchGo outcome (attempt + 1) r
            { result := rest.result, attempts := rest.attempts + 1,
              sleeps := backoffDelays.getD attempt 0 :: rest.sleeps }
      else
        { result := .error e, attempts := 1, sleeps := [] }

/-- `GitClient.fetch` with its default `maxRetries = 4`. -/
def gitFetch (outcome : Nat → Except String Unit) (maxRetries : Nat := 4) : RetryTrace :=
  fetchGo outcome 0 maxRetries

/-! ## Deployment verifier (`src/workflows/verify-deployment.ts`) -/

/-- `MAX_ATTEMPTS`. -/
def VERIFY_MAX_ATTEMPTS : Nat := 30

/-- `RETRY_DELAY` (milliseconds). -/
def VERIFY_RETRY_DELAY : Nat := 10000

/-- The two observations one attempt makes: the HTTP status of the first
    fetch (`checkSiteAccessible`, `0` when the fetch throws) and whether the
    body of the second fetch contains the
    `id="commit-<EXPECTED_COMMIT>"` marker (`checkCommitDeployed`). -/
structure VerifyTrace where
  status : Nat → Nat
  deployed : Nat → Bool

/-- Outcome of the verifier: either success at some attempt, or
    `process.exit(1)` after the loop. -/
inductive VerifyOutcome
  | success (attempt : Nat)
  | timedOut
  deriving Repr, DecidableEq

/-- The attempt loop of `main` (attempts numbered from 1).  Returns the
    outcome together with the delays slept. -/
def verifyGo (t : VerifyTrace) : Nat → Nat → VerifyOutcome × List Nat
  | _, 0 => (.timedOut, [])
  | attempt, r + 1 =>
      if t.status attempt ≠ 200 then
        let rest := verifyGo t (attempt + 1) r
        (rest.1, VERIFY_RETRY_DELAY :: rest.2)
      else if t.deployed attempt then
        (.success attempt, [])
      else
        let rest := verifyGo t (attempt + 1) r
        (rest.1, VERIFY_RETRY_DELAY :: rest.2)

/-- `main` of `verify-deployment.ts`. -/
def verifyMain (t : VerifyTrace) : VerifyOutcome × List Nat :=
  verifyGo t 1 VERIFY_MAX_ATTEMPTS

/-- Process exit code of the verifier: 0 on success, 1 on timeout. -/
def verifyExitCode : VerifyOutcome → Nat
  | .success _ => 0
  | .timedOut => 1

/-! ## Log cleanup utilities (`log-cleanup` module) -/

/-- `path.join` for the simple relative names used here. -/
def pathJoin (a b : String) : String := a ++ "/" ++ b

/-- `getCommitLogDir`. -/
def getCommitLogDir (baseDir commitSha : String) : String :=
  pathJoin baseDir (shortShaOf commitSha)

/-- `ensureCommitLogDir` returns (and creates) exactly `getCommitLogDir`. -/
def ensureCommitLogDir (baseDir commitSha : String) : String :=
  getCommitLogDir baseDir commitSha

/-- `cleanupOldLogs`, as the list of paths `fs.rmSync` is invoked on.
    `baseExists` models `existsSync(logDir)`, `entries` the
    `readdirSync(logDir, { withFileTypes: true })` listing as
    (name, isDirectory) pairs. -/
def cleanupOldLogs (baseExists : Bool) (entries : List (String × Bool))
    (logDir currentCommit : String) (dryRun : Bool) : List String :=
  if baseExists = false then []
  else
    let shortCommit := shortShaOf currentCommit
    let directories := (entries.filter (·.2)).map (·.1)
    directories.filterMap fun dir =>
      if dir = shortCommit ∨ dir = currentCommit then none
      else if dryRun then none
      else some (pathJoin logDir dir)

/-! ## Helper lemmas -/

theorem strAppend_cancel_left {a b c : String} (h : a ++ b = a ++ c) : b = c := by
  have hd : a.data ++ b.data = a.data ++ c.data := by
    have := congrArg String.data h
    simpa [String.data_append] using this
  exact String.ext (List.append_cancel_left hd)

theorem pathJoin_cancel {base x y : String} (h : pathJoin base x = pathJoin base y) : x = y := by
  unfold pathJoin at h
  rw [String.append_assoc, String.append_assoc] at h
  exact strAppend_cancel_left (strAppend_cancel_left h)

theorem jobStatusFor_name (fs : FS) (sha n : String) : (jobStatusFor fs sha n).name = n := by
  unfold jobStatusFor
  cases h : fs (statusFilePath sha n) <;> simp [h]

theorem jobStatusFor_pending_iff (fs : FS) (sha n : String) :
    (jobStatusFor fs sha n).status = .pending ↔
      fs (statusFilePath sha n) = .absent ∨ fs (statusFilePath sha n) = .unreadable := by
  unfold jobStatusFor
  cases h : fs (statusFilePath sha n) <;> simp [h]
  split <;> simp

theorem jobStatusFor_success_iff (fs : FS) (sha n : String) :
    (jobStatusFor fs sha n).status = .success ↔
      ∃ c, fs (statusFilePath sha n) = .readable c ∧ jsTrim c = "success" := by
  unfold jobStatusFor
  cases h : fs (statusFilePath sha n) <;> simp [h]

theorem jobStatusFor_failed_iff (fs : FS) (sha n : String) :
    (jobStatusFor fs sha n).status = .failed ↔
      ∃ c, fs (statusFilePath sha n) = .readable c ∧ jsTrim c ≠ "success" := by
  unfold jobStatusFor
  cases h : fs (statusFilePath sha n) <;> simp [h]

/-! ## Claim theorems -/

/-- C6: for every expected job name and commit SHA, `getJobStatuses` reports
    the job as pending exactly when the semaphore file
    `ci-logs/<short-sha>/<job>.status` is absent or unreadable, as success
    exactly when it is readable with trimmed content `"success"`, and as
    failed for any other readable content. -/
theorem getJobStatuses_semaphore_semantics :
    ∀ (fs : FS) (sha workflowName : String), workflowName ∈ EXPECTED_WORKFLOWS →
      jobStatusFor fs sha workflowName ∈ getJobStatuses fs sha ∧
      (jobStatusFor fs sha workflowName).name = workflowName ∧
      ((jobStatusFor fs sha workflowName).status = .pending ↔
        fs (statusFilePath sha workflowName) = .absent ∨
        fs (statusFilePath sha workflowName) = .unreadable) ∧
      ((jobStatusFor fs sha workflowName).status = .success ↔
        ∃ c, fs (statusFilePath sha workflowName) = .readable c ∧ jsTrim c = "success") ∧
      ((jobStatusFor fs sha workflowName).status = .failed ↔
        ∃ c, fs (statusFilePath sha workflowName) = .readable c ∧ jsTrim c ≠ "success") := by
  intro fs sha n hmem
  exact ⟨List.mem_map_of_mem _ hmem, jobStatusFor_name fs sha n,
    jobStatusFor_pending_iff fs sha n, jobStatusFor_success_iff fs sha n,
    jobStatusFor_failed_iff fs sha n⟩

/-- Concrete instance of `getJobStatuses_semaphore_semantics`. -/
theorem getJobStatuses_semaphore_semantics_witness :
    ("build" ∈ EXPECTED_WORKFLOWS) ∧
    (jobStatusFor (fun p => if p = "ci-logs/abc1234/build.status" then .readable " success\n" else .absent)
        "abc1234deadbeef" "build").status = .success := by
  have h := getJobStatuses_semaphore_semantics
    (fun p => if p = "ci-logs/abc1234/build.status" then .readable " success\n" else .absent)
    "abc1234deadbeef" "build" (by simp [EXPECTED_WORKFLOWS])
  exact ⟨by simp [EXPECTED_WORKFLOWS], h.2.2.2.1.mpr ⟨" success\n", by rfl, by rfl⟩⟩

theorem classifyResult_success_iff (sts : List JobStatus) (d : Nat) (lfs : List String) :
    ((classifyResult sts d lfs).success = true ∧
     (classifyResult sts d lfs).conclusion = "success") ↔
      (sts.filter (fun j => j.status = .pending) = [] ∧
       sts.filter (fun j => j.status = .failed) = []) := by
  unfold classifyResult
  dsimp only
  split_ifs with h1 h2 h3
  · rw [List.length_eq_zero, List.length_eq_zero] at h1
    simp [h1.1, h1.2]
  · constructor
    · intro h
      exact absurd h.1 (by simp)
    · rintro ⟨hp, hf⟩
      rw [hf] at h2
      simp at h2
  · constructor
    · intro h
      exact absurd h.1 (by simp)
    · rintro ⟨hp, hf⟩
      rw [hp] at h3
      simp at h3
  · exfalso
    rw [not_lt, Nat.le_zero] at h2 h3
    exact h1 ⟨h3, h2⟩

/-- C2: `checkPipeline` reports `success = true` with conclusion `"success"`
    iff every expected job's semaphore file is readable with trimmed content
    `"success"`; with at least one failed job it reports conclusion
    `"failure"` and one error per failed job; with no failed but some pending
    job it reports conclusion `"pending"` and one error per pending job; the
    process exit code is `0` exactly when `success = true`. -/
theorem checkPipeline_aggregation :
    ∀ (fs : FS) (sha : String) (duration : Nat) (logFiles : List String),
      (((classifyResult (getJobStatuses fs sha) duration logFiles).success = true ∧
        (classifyResult (getJobStatuses fs sha) duration logFiles).conclusion = "success") ↔
        ∀ n ∈ EXPECTED_WORKFLOWS,
          ∃ c, fs (statusFilePath sha n) = .readable c ∧ jsTrim c = "success") ∧
      ((getJobStatuses fs sha).filter (fun j => j.status = .failed) ≠ [] →
        (classifyResult (getJobStatuses fs sha) duration logFiles).success = false ∧
        (classifyResult (getJobStatuses fs sha) duration logFiles).conclusion = "failure" ∧
        (classifyResult (getJobStatuses fs sha) duration logFiles).errors =
          ((getJobStatuses fs sha).filter (fun j => j.status = .failed)).map
            (fun j => "Job '" ++ j.name ++ "' failed")) ∧
      ((getJobStatuses fs sha).filter (fun j => j.status = .failed) = [] →
       (getJobStatuses fs sha).filter (fun j => j.status = .pending) ≠ [] →
        (classifyResult (getJobStatuses fs sha) duration logFiles).success = false ∧
        (classifyResult (getJobStatuses fs sha) duration logFiles).conclusion = "pending" ∧
        (classifyResult (getJobStatuses fs sha) duration logFiles).errors =
          ((getJobStatuses fs sha).filter (fun j => j.status = .pending)).map
            (fun j => "Job '" ++ j.name ++ "' did not complete")) ∧
      (checkPipelineExitCode (.ok (classifyResult (getJobStatuses fs sha) duration logFiles)) = 0 ↔
        (classifyResult (getJobStatuses fs sha) duration logFiles).success = true) := by
  intro fs sha duration logFiles
  refine ⟨?_, ?_, ?_, ?_⟩
  · rw [classifyResult_success_iff]
    constructor
    · rintro ⟨hp, hf⟩ n hn
      have hjp := (List.filter_eq_nil_iff.mp hp) _ (List.mem_map_of_mem (jobStatusFor fs sha) hn)
      have hjf := (List.filter_eq_nil_iff.mp hf) _ (List.mem_map_of_mem (jobStatusFor fs sha) hn)
      simp only [decide_eq_true_eq] at hjp hjf
      cases hs : (jobStatusFor fs sha n).status with
      | success => exact (jobStatusFor_success_iff fs sha n).mp hs
      | failed => exact absurd hs hjf
      | pending => exact absurd hs hjp
    · intro h
      constructor
      · rw [List.filter_eq_nil_iff]
        intro j hj
        obtain ⟨n, hn, rfl⟩ := List.mem_map.mp hj
        have hs := (jobStatusFor_success_iff fs sha n).mpr (h n hn)
        simp [hs]
      · rw [List.filter_eq_nil_iff]
        intro j hj
        obtain ⟨n, hn, rfl⟩ := List.mem_map.mp hj
        have hs := (jobStatusFor_success_iff fs sha n).mpr (h n hn)
        simp [hs]
  · intro hf
    unfold classifyResult
    dsimp only
    split_ifs with h1 h2 h3
    · exact absurd (List.length_eq_zero.mp h1.2) hf
    · exact ⟨rfl, rfl, rfl⟩
    · exfalso
      rw [not_lt, Nat.le_zero, List.length_eq_zero] at h2
      exact hf h2
    · exfalso
      rw [not_lt, Nat.le_zero, List.length_eq_zero] at h2
      exact hf h2
  · intro hf hp
    unfold classifyResult
    dsimp only
    split_ifs with h1 h2 h3
    · exact absurd (List.length_eq_zero.mp h1.1) hp
    · exfalso
      rw [hf] at h2
      simp at h2
    · exact ⟨rfl, rfl, rfl⟩
    · exfalso
      rw [not_lt, Nat.le_zero, List.length_eq_zero] at h3
      exact hp h3
  · unfold checkPipelineExitCode
    cases h : (classifyResult (getJobStatuses fs sha) duration logFiles).success <;> simp [h]

/-- Concrete instance of `checkPipeline_aggregation`: one failed job yields
    conclusion `"failure"` with one error entry. -/
theorem checkPipeline_aggregation_witness :
    (classifyResult
      (getJobStatuses
        (fun p => if p = "ci-logs/abc1234/build.status" then .readable "failed" else .readable "success")
        "abc1234deadbeef") 5 []).conclusion = "failure" := by
  have h := (checkPipeline_aggregation
    (fun p => if p = "ci-logs/abc1234/build.status" then .readable "failed" else .readable "success")
    "abc1234deadbeef" 5 []).2.1 (by decide)
  exact h.2.1

theorem waitForAllJobsAux_spec (obs : Nat → List JobStatus) (timeoutSeconds : Nat)
    (skipWait : Bool) :
    ∀ k, ∃ n, k ≤ n ∧ waitForAllJobsAux obs timeoutSeconds skipWait k = obs n ∧
      ((pendingOf (obs n)).isEmpty = true ∨ skipWait = true ∨ timeoutSeconds ≤ 10 * n) ∧
      (∀ m, k ≤ m → m < n →
        (pendingOf (obs m)).isEmpty = false ∧ skipWait = false ∧ 10 * m < timeoutSeconds) := by
  intro k
  generalize hd : timeoutSeconds - 10 * k = d
  induction d using Nat.strong_induction_on generalizing k with
  | _ d ih =>
    rw [waitForAllJobsAux]
    by_cases h1 : (pendingOf (obs k)).isEmpty = true
    · exact ⟨k, le_refl k, by simp [h1], Or.inl h1, fun m hm hm' => absurd (lt_of_le_of_lt hm hm') (lt_irrefl k)⟩
    · by_cases h2 : skipWait = true
      · exact ⟨k, le_refl k, by simp [h1, h2], Or.inr (Or.inl h2),
          fun m hm hm' => absurd (lt_of_le_of_lt hm hm') (lt_irrefl k)⟩
      · by_cases h3 : timeoutSeconds ≤ 10 * k
        · exact ⟨k, le_refl k, by simp [h1, h2, h3], Or.inr (Or.inr h3),
            fun m hm hm' => absurd (lt_of_le_of_lt hm hm') (lt_irrefl k)⟩
        · obtain ⟨n, hkn, hres, hstop, hprog⟩ :=
            ih (timeoutSeconds - 10 * (k + 1)) (by omega) (k + 1) rfl
          refine ⟨n, by omega, ?_, hstop, ?_⟩
          · simpa [h1, h2, h3] using hres
          · intro m hm hm'
            rcases Nat.eq_or_lt_of_le hm with h | h
            · subst h
              exact ⟨Bool.not_eq_true _ ▸ (by simpa using h1), Bool.not_eq_true _ ▸ (by simpa using h2), by omega⟩
            · exact hprog m (by omega) hm'

theorem waitForWorkflowsAux_spec (obs : Nat → List WorkflowRun) (timeoutSeconds : Nat)
    (skipWait : Bool) :
    ∀ k, ∃ n, k ≤ n ∧ waitForWorkflowsAux obs timeoutSeconds skipWait k = obs n ∧
      (skipWait = true ∨ timeoutSeconds ≤ 10 * n ∨
        (obs n ≠ [] ∧ ((obs n).filter isInProgress).isEmpty = true)) ∧
      (∀ m, k ≤ m → m < n →
        skipWait = false ∧ 10 * m < timeoutSeconds ∧
        (obs m = [] ∨ ((obs m).filter isInProgress).isEmpty = false)) := by
  intro k
  generalize hd : timeoutSeconds - 10 * k = d
  induction d using Nat.strong_induction_on generalizing k with
  | _ d ih =>
    rw [waitForWorkflowsAux]
    by_cases h0 : (obs k).isEmpty = true
    · have h0' : obs k = [] := by simpa [List.isEmpty_iff] using h0
      by_cases h2 : skipWait = true
      · exact ⟨k, le_refl k, by simp [h0, h0', h2], Or.inl h2,
          fun m hm hm' => absurd (lt_of_le_of_lt hm hm') (lt_irrefl k)⟩
      · by_cases h3 : timeoutSeconds ≤ 10 * k
        · exact ⟨k, le_refl k, by simp [h0, h0', h2, h3], Or.inr (Or.inl h3),
            fun m hm hm' => absurd (lt_of_le_of_lt hm hm') (lt_irrefl k)⟩
        · obtain ⟨n, hkn, hres, hstop, hprog⟩ :=
            ih (timeoutSeconds - 10 * (k + 1)) (by omega) (k + 1) rfl
          refine ⟨n, by omega, ?_, hstop, ?_⟩
          · simpa [h0, h2, h3] using hres
          · intro m hm hm'
            rcases Nat.eq_or_lt_of_le hm with h | h
            · subst h
              exact ⟨Bool.not_eq_true _ ▸ (by simpa using h2), by omega, Or.inl h0'⟩
            · exact hprog m (by omega) hm'
    · by_cases h1 : ((obs k).filter isInProgress).isEmpty = true
      · exact ⟨k, le_refl k, by simp [h0, h1], Or.inr (Or.inr ⟨by simpa [List.isEmpty_iff] using h0, h1⟩),
          fun m hm hm' => absurd (lt_of_le_of_lt hm hm') (lt_irrefl k)⟩
      · by_cases h2 : skipWait = true
        · exact ⟨k, le_refl k, by simp [h0, h1, h2], Or.inl h2,
            fun m hm hm' => absurd (lt_of_le_of_lt hm hm') (lt_irrefl k)⟩
        · by_cases h3 : timeoutSeconds ≤ 10 * k
          · exact ⟨k, le_refl k, by simp [h0, h1, h2, h3], Or.inr (Or.inl h3),
              fun m hm hm' => absurd (lt_of_le_of_lt hm hm') (lt_irrefl k)⟩
          · obtain ⟨n, hkn, hres, hstop, hprog⟩ :=
              ih (timeoutSeconds - 10 * (k + 1)) (by omega) (k + 1) rfl
            refine ⟨n, by omega, ?_, hstop, ?_⟩
            · simpa [h0, h1, h2, h3] using hres
            · intro m hm hm'
              rcases Nat.eq_or_lt_of_le hm with h | h
              · subst h
                exact ⟨Bool.not_eq_true _ ▸ (by simpa using h2), by omega,
                  Or.inr (Bool.not_eq_true _ ▸ (by simpa using h1))⟩
              · exact hprog m (by omega) hm'

/-- C3: both waiting loops are bounded.  Each returns the observation of some
    poll `n` at which a stop condition holds (no pending job / no run in
    progress, `skipWait`, or ten-second polls exhausting the timeout), and at
    every earlier poll no stop condition held — in particular `skipWait`
    forces a return at the first poll, and the loops poll once per
    ten-second interval until the timeout is reached. -/
theorem polling_loops_bounded :
    (∀ (obs : Nat → List JobStatus) (timeoutSeconds : Nat) (skipWait : Bool),
      ∃ n, waitForAllJobs obs timeoutSeconds skipWait = obs n ∧
        ((pendingOf (obs n)).isEmpty = true ∨ skipWait = true ∨ timeoutSeconds ≤ 10 * n) ∧
        (∀ m, m < n →
          (pendingOf (obs m)).isEmpty = false ∧ skipWait = false ∧ 10 * m < timeoutSeconds)) ∧
    (∀ (obs : Nat → List WorkflowRun) (timeoutSeconds : Nat) (skipWait : Bool),
      ∃ n, waitForWorkflows obs timeoutSeconds skipWait = obs n ∧
        (skipWait = true ∨ timeoutSeconds ≤ 10 * n ∨
          (obs n ≠ [] ∧ ((obs n).filter isInProgress).isEmpty = true)) ∧
        (∀ m, m < n →
          skipWait = false ∧ 10 * m < timeoutSeconds ∧
          (obs m = [] ∨ ((obs m).filter isInProgress).isEmpty = false))) := by
  constructor
  · intro obs timeoutSeconds skipWait
    obtain ⟨n, _, hres, hstop, hprog⟩ := waitForAllJobsAux_spec obs timeoutSeconds skipWait 0
    exact ⟨n, hres, hstop, fun m hm => hprog m (Nat.zero_le m) hm⟩
  · intro obs timeoutSeconds skipWait
    obtain ⟨n, _, hres, hstop, hprog⟩ := waitForWorkflowsAux_spec obs timeoutSeconds skipWait 0
    exact ⟨n, hres, hstop, fun m hm => hprog m (Nat.zero_le m) hm⟩

theorem pushGo_attempts_pos (o : Nat → Except String Unit) (a r : Nat) :
    1 ≤ (pushGo o a r).attempts := by
  rw [pushGo]
  cases o a with
  | ok _ => simp
  | error e =>
      dsimp only
      split_ifs <;> cases r <;> simp

theorem pushGo_attempts_le (o : Nat → Except String Unit) :
    ∀ r a, (pushGo o a r).attempts ≤ r + 1 := by
  intro r
  induction r with
  | zero =>
      intro a
      rw [pushGo]
      cases o a with
      | ok _ => simp
      | error e => dsimp only; split_ifs <;> simp
  | succ r ih =>
      intro a
      rw [pushGo]
      cases o a with
      | ok _ => simp
      | error e =>
          dsimp only
          split_ifs <;> simp
          exact ih (a + 1)

theorem pushGo_sleeps_eq (o : Nat → Except String Unit) :
    ∀ r a, a + r ≤ backoffDelays.length →
      (pushGo o a r).sleeps = (backoffDelays.drop a).take ((pushGo o a r).attempts - 1) := by
  intro r
  induction r with
  | zero =>
      intro a _
      rw [pushGo]
      cases o a with
      | ok _ => simp
      | error e => dsimp only; split_ifs <;> simp
  | succ r ih =>
      intro a ha
      rw [pushGo]
      cases o a with
      | ok _ => simp
      | error e =>
          dsimp only
          split_ifs <;> simp
          have hlt : a < backoffDelays.length := by omega
          obtain ⟨s, hs⟩ := Nat.exists_eq_add_of_le (pushGo_attempts_pos o (a + 1) r)
          rw [List.drop_eq_getElem_cons hlt, List.getElem?_eq_getElem hlt]
          simp only [Option.getD_some]
          rw [ih (a + 1) (by omega), hs]
          have h1 : 1 + s = s + 1 := Nat.add_comm 1 s
          rw [h1, List.take_succ_cons]
          simp

theorem pushGo_retried (o : Nat → Except String Unit) :
    ∀ r a j, j + 1 < (pushGo o a r).attempts →
      ∃ e, o (a + j) = .error e ∧ isNetworkError e = true ∧
        strIncludes e "403" = false ∧ j < r := by
  intro r
  induction r with
  | zero =>
      intro a j h
      rw [pushGo] at h
      cases ho : o a with
      | ok _ => rw [ho] at h; simp at h
      | error e => rw [ho] at h; dsimp only at h; split_ifs at h <;> simp at h
  | succ r ih =>
      intro a j h
      rw [pushGo] at h
      cases ho : o a with
      | ok _ => rw [ho] at h; simp at h
      | error e =>
          rw [ho] at h
          dsimp only at h
          split_ifs at h with h403 hnet
          · simp at h
          · simp only at h
            cases j with
            | zero =>
                exact ⟨e, by simpa using ho, by simpa using hnet, by simpa using h403, by omega⟩
            | succ j =>
                obtain ⟨e', he', hn', h4', hj'⟩ := ih (a + 1) j (by simpa using h)
                exact ⟨e', by rw [show a + (j + 1) = a + 1 + j by omega]; exact he', hn', h4', by omega⟩
          · simp at h

theorem pushGo_403 (o : Nat → Except String Unit) (a r : Nat) (e : String)
    (ho : o a = .error e) (h403 : strIncludes e "403" = true) :
    pushGo o a r = { result := .error e, attempts := 1, sleeps := [] } := by
  rw [pushGo, ho]
  simp [h403]

theorem fetchGo_attempts_pos (o : Nat → Except String Unit) (a r : Nat) :
    1 ≤ (fetchGo o a r).attempts := by
  rw [fetchGo]
  cases o a with
  | ok _ => simp
  | error e =>
      dsimp only
      split_ifs <;> cases r <;> simp

theorem fetchGo_attempts_le (o : Nat → Except String Unit) :
    ∀ r a, (fetchGo o a r).attempts ≤ r + 1 := by
  intro r
  induction r with
  | zero =>
      intro a
      rw [fetchGo]
      cases o a with
      | ok _ => simp
      | error e => dsimp only; split_ifs <;> simp
  | succ r ih =>
      intro a
      rw [fetchGo]
      cases o a with
      | ok _ => simp
      | error e =>
          dsimp only
          split_ifs <;> simp
          exact ih (a + 1)

theorem fetchGo_sleeps_eq (o : Nat → Except String Unit) :
    ∀ r a, a + r ≤ backoffDelays.length →
      (fetchGo o a r).sleeps = (backoffDelays.drop a).take ((fetchGo o a r).attempts - 1) := by
  intro r
  induction r with
  | zero =>
      intro a _
      rw [fetchGo]
      cases o a with
      | ok _ => simp
      | error e => dsimp only; split_ifs <;> simp
  | succ r ih =>
      intro a ha
      rw [fetchGo]
      cases o a with
      | ok _ => simp
      | error e =>
          dsimp only
          split_ifs <;> simp
          have hlt : a < backoffDelays.length := by omega
          obtain ⟨s, hs⟩ := Nat.exists_eq_add_of_le (fetchGo_attempts_pos o (a + 1) r)
          rw [List.drop_eq_getElem_cons hlt, List.getElem?_eq_getElem hlt]
          simp only [Option.getD_some]
          rw [ih (a + 1) (by omega), hs]
          have h1 : 1 + s = s + 1 := Nat.add_comm 1 s
          rw [h1, List.take_succ_cons]
          simp

theorem fetchGo_retried (o : Nat → Except String Unit) :
    ∀ r a j, j + 1 < (fetchGo o a r).attempts →
      ∃ e, o (a + j) = .error e ∧ isNetworkError e = true ∧ j < r := by
  intro r
  induction r with
  | zero =>
      intro a j h
      rw [fetchGo] at h
      cases ho : o a with
      | ok _ => rw [ho] at h; simp at h
      | error e => rw [ho] at h; dsimp only at h; split_ifs at h <;> simp at h
  | succ r ih =>
      intro a j h
      rw [fetchGo] at h
      cases ho : o a with
      | ok _ => rw [ho] at h; simp at h
      | error e =>
          rw [ho] at h
          dsimp only at h
          split_ifs at h with hnet
          · simp only at h
            cases j with
            | zero =>
                exact ⟨e, by simpa using ho, by simpa using hnet, by omega⟩
            | succ j =>
                obtain ⟨e', he', hn', hj'⟩ := ih (a + 1) j (by simpa using h)
                exact ⟨e', by rw [show a + (j + 1) = a + 1 + j by omega]; exact he', hn', by omega⟩
          · simp at h

/-- C4: the retry wrappers `GitClient.push` and `GitClient.fetch` make at
    most `maxRetries + 1` attempts (5 by default), sleep the exponential
    backoff delays `2000, 4000, 8000, 16000` ms (each double the previous)
    between consecutive attempts, retry only when the error message looks
    like a network error and attempts remain, and rethrow a 403 error on
    push immediately without further attempts. -/
theorem git_retry_backoff_spec :
    (backoffDelays = [2000, 4000, 8000, 16000]) ∧
    (∀ i, i + 1 < backoffDelays.length →
      backoffDelays.getD (i + 1) 0 = 2 * backoffDelays.getD i 0) ∧
    (∀ o maxRetries, (gitPush o maxRetries).attempts ≤ maxRetries + 1) ∧
    (∀ o maxRetries, (gitFetch o maxRetries).attempts ≤ maxRetries + 1) ∧
    (∀ o, (gitPush o).sleeps = backoffDelays.take ((gitPush o).attempts - 1)) ∧
    (∀ o, (gitFetch o).sleeps = backoffDelays.take ((gitFetch o).attempts - 1)) ∧
    (∀ o maxRetries j, j + 1 < (gitPush o maxRetries).attempts →
      ∃ e, o j = .error e ∧ isNetworkError e = true ∧
        strIncludes e "403" = false ∧ j < maxRetries) ∧
    (∀ o maxRetries j, j + 1 < (gitFetch o maxRetries).attempts →
      ∃ e, o j = .error e ∧ isNetworkError e = true ∧ j < maxRetries) ∧
    (∀ o maxRetries e, o 0 = .error e → strIncludes e "403" = true →
      gitPush o maxRetries = { result := .error e, attempts := 1, sleeps := [] }) := by
  refine ⟨rfl, ?_, ?_, ?_, ?_, ?_, ?_, ?_, ?_⟩
  · intro i hi
    have h3 : i < 3 := by simp [backoffDelays] at hi; omega
    interval_cases i <;> rfl
  · intro o maxRetries
    exact pushGo_attempts_le o maxRetries 0
  · intro o maxRetries
    exact fetchGo_attempts_le o maxRetries 0
  · intro o
    simpa using pushGo_sleeps_eq o 4 0 (by decide)
  · intro o
    simpa using fetchGo_sleeps_eq o 4 0 (by decide)
  · intro o maxRetries j h
    simpa using pushGo_retried o maxRetries 0 j h
  · intro o maxRetries j h
    simpa using fetchGo_retried o maxRetries 0 j h
  · intro o maxRetries e ho h403
    exact pushGo_403 o 0 maxRetries e ho h403

/-- Concrete instance of `git_retry_backoff_spec`: a 403 push error aborts
    after one attempt, with no sleeps. -/
theorem git_retry_backoff_spec_witness :
    gitPush (fun _ => Except.error "remote: 403 Forbidden") 4 =
      { result := .error "remote: 403 Forbidden", attempts := 1, sleeps := [] } := by
  exact git_retry_backoff_spec.2.2.2.2.2.2.2.2
    (fun _ => Except.error "remote: 403 Forbidden") 4 "remote: 403 Forbidden" rfl (by decide)

theorem verifyGo_sleeps_const (t : VerifyTrace) :
    ∀ r a d, d ∈ (verifyGo t a r).2 → d = VERIFY_RETRY_DELAY := by
  intro r
  induction r with
  | zero =>
      intro a d hd
      rw [verifyGo] at hd
      simp at hd
  | succ r ih =>
      intro a d hd
      rw [verifyGo] at hd
      split_ifs at hd <;> simp at hd <;>
        (rcases hd with h | h
         · exact h
         · exact ih (a + 1) d h)

theorem verifyGo_sleeps_len (t : VerifyTrace) :
    ∀ r a, (verifyGo t a r).2.length ≤ r := by
  intro r
  induction r with
  | zero =>
      intro a
      rw [verifyGo]
      simp
  | succ r ih =>
      intro a
      rw [verifyGo]
      split_ifs <;> simp
      · exact ih (a + 1)
      · exact ih (a + 1)

theorem verifyGo_success_char (t : VerifyTrace) :
    ∀ r a x, (verifyGo t a r).1 = .success x →
      t.status x = 200 ∧ t.deployed x = true ∧ a ≤ x ∧ x < a + r := by
  intro r
  induction r with
  | zero =>
      intro a x h
      rw [verifyGo] at h
      simp at h
  | succ r ih =>
      intro a x h
      rw [verifyGo] at h
      split_ifs at h with h200 hdep
      · obtain ⟨hs, hd, hax, hxr⟩ := ih (a + 1) x (by simpa using h)
        exact ⟨hs, hd, by omega, by omega⟩
      · simp at h
        subst h
        exact ⟨by omega, hdep, le_refl a, by omega⟩
      · obtain ⟨hs, hd, hax, hxr⟩ := ih (a + 1) x (by simpa using h)
        exact ⟨hs, hd, by omega, by omega⟩

theorem verifyGo_timedOut (t : VerifyTrace) :
    ∀ r a, (∀ x, a ≤ x → x < a + r → ¬(t.status x = 200 ∧ t.deployed x = true)) →
      (verifyGo t a r).1 = .timedOut := by
  intro r
  induction r with
  | zero =>
      intro a _
      rw [verifyGo]
  | succ r ih =>
      intro a hnone
      rw [verifyGo]
      split_ifs with h200 hdep
      · simpa using ih (a + 1) (fun x hx hx' => hnone x (by omega) (by omega))
      · exact absurd ⟨by omega, hdep⟩ (hnone a (le_refl a) (by omega))
      · simpa using ih (a + 1) (fun x hx hx' => hnone x (by omega) (by omega))

/-- C5 counterexample: the delays of the `GitClient.push` retry loop are not
    constant — after the first failed attempt it sleeps 2000 ms, after the
    second 4000 ms. -/
theorem fixed_delay_counterexample :
    (gitPush (fun _ => Except.error "Connection reset")).sleeps = [2000, 4000, 8000, 16000] ∧
    (gitPush (fun _ => Except.error "Connection reset")).sleeps.getD 1 0 ≠
      (gitPush (fun _ => Except.error "Connection reset")).sleeps.getD 0 0 :=
  ⟨rfl, by decide⟩

/-- C5 (amended): every retry loop in the CI scripts makes a bounded number
    of attempts; the deployment verifier's polling loop sleeps a constant
    10000 ms between attempts, while `GitClient.push` and `GitClient.fetch`
    sleep exponentially doubling delays 2000, 4000, 8000, 16000 ms. -/
theorem retry_loops_bounded_fixed_or_doubling :
    (∀ t : VerifyTrace, (verifyMain t).2.length ≤ VERIFY_MAX_ATTEMPTS ∧
      ∀ d ∈ (verifyMain t).2, d = VERIFY_RETRY_DELAY) ∧
    (∀ o maxRetries, (pushGo o 0 maxRetries).attempts ≤ maxRetries + 1 ∧
      (fetchGo o 0 maxRetries).attempts ≤ maxRetries + 1) ∧
    (∀ o, (pushGo o 0 4).sleeps = backoffDelays.take ((pushGo o 0 4).attempts - 1)) ∧
    (∀ o, (fetchGo o 0 4).sleeps = backoffDelays.take ((fetchGo o 0 4).attempts - 1)) ∧
    (∀ i, i + 1 < backoffDelays.length →
      backoffDelays.getD (i + 1) 0 = 2 * backoffDelays.getD i 0) := by
  refine ⟨?_, ?_, ?_, ?_, ?_⟩
  · intro t
    exact ⟨verifyGo_sleeps_len t VERIFY_MAX_ATTEMPTS 1, fun d hd => verifyGo_sleeps_const t VERIFY_MAX_ATTEMPTS 1 d hd⟩
  · intro o maxRetries
    exact ⟨pushGo_attempts_le o maxRetries 0, fetchGo_attempts_le o maxRetries 0⟩
  · intro o
    simpa using pushGo_sleeps_eq o 4 0 (by decide)
  · intro o
    simpa using fetchGo_sleeps_eq o 4 0 (by decide)
  · intro i hi
    have h3 : i < 3 := by simp [backoffDelays] at hi; omega
    interval_cases i <;> rfl

/-- Concrete instance of `retry_loops_bounded_fixed_or_doubling`: the verify
    loop's sleeps are all the constant 10000 ms. -/
theorem retry_loops_bounded_fixed_or_doubling_witness :
    10000 ∈ (verifyMain ⟨fun _ => 404, fun _ => false⟩).2 ∧
    (∀ d ∈ (verifyMain ⟨fun _ => 404, fun _ => false⟩).2, d = VERIFY_RETRY_DELAY) :=
  ⟨by decide, (retry_loops_bounded_fixed_or_doubling.1 ⟨fun _ => 404, fun _ => false⟩).2⟩

/-- C8: the deployment verifier reports success only when some attempt's
    first fetch returned HTTP 200 and its subsequent fetch's body contained
    the commit marker; if no attempt among the 30 (spaced by constant
    10000 ms sleeps) sees that, it exits with code 1. -/
theorem verify_deployment_sound :
    (∀ (t : VerifyTrace) (x : Nat), (verifyMain t).1 = .success x →
      t.status x = 200 ∧ t.deployed x = true ∧ 1 ≤ x ∧ x ≤ VERIFY_MAX_ATTEMPTS) ∧
    (∀ t : VerifyTrace,
      (∀ x, 1 ≤ x → x ≤ VERIFY_MAX_ATTEMPTS → ¬(t.status x = 200 ∧ t.deployed x = true)) →
      (verifyMain t).1 = .timedOut ∧ verifyExitCode (verifyMain t).1 = 1) ∧
    (∀ (t : VerifyTrace) (d : Nat), d ∈ (verifyMain t).2 → d = VERIFY_RETRY_DELAY) := by
  refine ⟨?_, ?_, ?_⟩
  · intro t x h
    obtain ⟨hs, hd, hx1, hx30⟩ := verifyGo_success_char t VERIFY_MAX_ATTEMPTS 1 x h
    exact ⟨hs, hd, hx1, by simp [VERIFY_MAX_ATTEMPTS] at hx30 ⊢; omega⟩
  · intro t hnone
    have h := verifyGo_timedOut t VERIFY_MAX_ATTEMPTS 1
      (fun x hx hx' => hnone x hx (by simp [VERIFY_MAX_ATTEMPTS] at hx' ⊢; omega))
    exact ⟨h, by rw [verifyExitCode.eq_def, show (verifyMain t).1 = VerifyOutcome.timedOut from h]⟩
  · intro t d hd
    exact verifyGo_sleeps_const t VERIFY_MAX_ATTEMPTS 1 d hd

/-- Concrete instance of `verify_deployment_sound`: a site that never serves
    the expected commit makes the verifier exit with code 1. -/
theorem verify_deployment_sound_witness :
    verifyExitCode (verifyMain ⟨fun _ => 200, fun _ => false⟩).1 = 1 :=
  (verify_deployment_sound.2.1 ⟨fun _ => 200, fun _ => false⟩
    (fun x _ _ => by simp)).2

/-- C7: every per-commit artifact operation keys its directory by the first
    7 characters of the commit SHA: the status-file lookup, per-commit
    log-file discovery, log-directory creation and cleanup preservation all
    use `ci-logs/<short-sha>`, and commits with different 7-character
    prefixes never share a directory. -/
theorem artifact_dirs_keyed_by_short_sha :
    (∀ sha workflowName : String,
      statusFilePath sha workflowName =
        pathJoin (getCommitLogDir "ci-logs" sha) (workflowName ++ ".status")) ∧
    (∀ (dfs : DirFS) (sha : String) (l : List String) (p : String),
      findLogFiles dfs (some sha) = .ok l → p ∈ l →
      ∃ f, p = pathJoin (getCommitLogDir "ci-logs" sha) f) ∧
    (∀ baseDir sha : String,
      ensureCommitLogDir baseDir sha = pathJoin baseDir (shortShaOf sha)) ∧
    (∀ (baseExists : Bool) (entries : List (String × Bool)) (cur : String) (dryRun : Bool),
      getCommitLogDir "ci-logs" cur ∉ cleanupOldLogs baseExists entries "ci-logs" cur dryRun) ∧
    (∀ baseDir s₁ s₂ : String, shortShaOf s₁ ≠ shortShaOf s₂ →
      getCommitLogDir baseDir s₁ ≠ getCommitLogDir baseDir s₂) := by
  refine ⟨?_, ?_, ?_, ?_, ?_⟩
  · intro sha workflowName
    exact String.append_assoc ("ci-logs/" ++ shortShaOf sha ++ "/") workflowName ".status"
  · intro dfs sha l p hok hp
    unfold findLogFiles at hok
    by_cases h0 : dfs.existsSync "ci-logs" = false
    · rw [if_pos h0] at hok
      obtain rfl : ([] : List String) = l := by simpa using hok
      simp at hp
    · rw [if_neg h0] at hok
      dsimp only at hok
      by_cases h1 : dfs.existsSync ("ci-logs/" ++ shortShaOf sha) = true
      · rw [if_pos h1] at hok
        rcases hr : dfs.readdirSync ("ci-logs/" ++ shortShaOf sha) with _ | files
        · rw [hr] at hok
          simp at hok
        · rw [hr] at hok
          obtain rfl : _ = l := by simpa using hok
          obtain ⟨f, _, rfl⟩ := List.mem_map.mp hp
          exact ⟨f, rfl⟩
      · rw [if_neg h1] at hok
        obtain rfl : ([] : List String) = l := by simpa using hok
        simp at hp
  · intro baseDir sha
    rfl
  · intro baseExists entries cur dryRun hmem
    unfold cleanupOldLogs at hmem
    by_cases h0 : baseExists = false
    · rw [if_pos h0] at hmem
      simp at hmem
    · rw [if_neg h0] at hmem
      dsimp only at hmem
      obtain ⟨dir, _, hdir⟩ := List.mem_filterMap.mp hmem
      by_cases hpres : dir = shortShaOf cur ∨ dir = cur
      · rw [if_pos hpres] at hdir
        simp at hdir
      · rw [if_neg hpres] at hdir
        by_cases hdry : dryRun = true
        · rw [if_pos hdry] at hdir
          simp at hdir
        · rw [if_neg hdry] at hdir
          have h2 : pathJoin "ci-logs" dir = pathJoin "ci-logs" (shortShaOf cur) := by
            simpa using hdir
          exact hpres (Or.inl (pathJoin_cancel h2))
  · intro baseDir s₁ s₂ hne heq
    exact hne (pathJoin_cancel heq)

/-- Concrete instance of `artifact_dirs_keyed_by_short_sha`: two SHAs with
    different 7-character prefixes get different log directories. -/
theorem artifact_dirs_keyed_by_short_sha_witness :
    getCommitLogDir "ci-logs" "abc1234deadbeef" ≠ getCommitLogDir "ci-logs" "abc9999deadbeef" :=
  artifact_dirs_keyed_by_short_sha.2.2.2.2 "ci-logs" "abc1234deadbeef" "abc9999deadbeef" (by decide)

/-- C10: `cleanupOldLogs` never deletes the current commit's directory (under
    its full SHA or 7-character prefix name), deletes nothing in a dry run,
    and only ever touches subdirectories of the base directory. -/
theorem cleanupOldLogs_frame :
    ∀ (baseExists : Bool) (entries : List (String × Bool)) (logDir currentCommit : String)
      (dryRun : Bool),
      pathJoin logDir (shortShaOf currentCommit) ∉
        cleanupOldLogs baseExists entries logDir currentCommit dryRun ∧
      pathJoin logDir currentCommit ∉
        cleanupOldLogs baseExists entries logDir currentCommit dryRun ∧
      (dryRun = true → cleanupOldLogs baseExists entries logDir currentCommit dryRun = []) ∧
      (∀ p ∈ cleanupOldLogs baseExists entries logDir currentCommit dryRun,
        ∃ dir, (dir, true) ∈ entries ∧ p = pathJoin logDir dir ∧
          dir ≠ shortShaOf currentCommit ∧ dir ≠ currentCommit) := by
  intro baseExists entries logDir currentCommit dryRun
  have hmem : ∀ p ∈ cleanupOldLogs baseExists entries logDir currentCommit dryRun,
      ∃ dir, (dir, true) ∈ entries ∧ p = pathJoin logDir dir ∧
        dir ≠ shortShaOf currentCommit ∧ dir ≠ currentCommit ∧ dryRun = false := by
    intro p hp
    unfold cleanupOldLogs at hp
    by_cases h0 : baseExists = false
    · rw [if_pos h0] at hp
      simp at hp
    · rw [if_neg h0] at hp
      dsimp only at hp
      obtain ⟨dir, hdirs, hdir⟩ := List.mem_filterMap.mp hp
      obtain ⟨pair, hpair, rfl⟩ := List.mem_map.mp hdirs
      have hpt : pair.2 = true := by
        have := List.mem_filter.mp hpair
        simpa using this.2
      by_cases hpres : pair.1 = shortShaOf currentCommit ∨ pair.1 = currentCommit
      · rw [if_pos hpres] at hdir
        simp at hdir
      · rw [if_neg hpres] at hdir
        by_cases hdry : dryRun = true
        · rw [if_pos hdry] at hdir
          simp at hdir
        · rw [if_neg hdry] at hdir
          refine ⟨pair.1, ?_, ?_, ?_, ?_, ?_⟩
          · have := (List.mem_filter.mp hpair).1
            rwa [show pair = (pair.1, true) from Prod.ext rfl hpt] at this
          · exact (by simpa using hdir : pathJoin logDir pair.1 = p).symm
          · exact fun h => hpres (Or.inl h)
          · exact fun h => hpres (Or.inr h)
          · simpa using hdry
  refine ⟨?_, ?_, ?_, fun p hp => (hmem p hp).imp (fun dir h => ⟨h.1, h.2.1, h.2.2.1, h.2.2.2.1⟩)⟩
  · intro hp
    obtain ⟨dir, _, heq, hne, _, _⟩ := hmem _ hp
    exact hne (pathJoin_cancel heq).symm
  · intro hp
    obtain ⟨dir, _, heq, _, hne, _⟩ := hmem _ hp
    exact hne (pathJoin_cancel heq).symm
  · intro hdry
    rcases h : cleanupOldLogs baseExists entries logDir currentCommit dryRun with _ | ⟨p, rest⟩
    · rfl
    · obtain ⟨_, _, _, _, _, hfalse⟩ := hmem p (by rw [h]; exact List.mem_cons_self p rest)
      rw [hdry] at hfalse
      cases hfalse

/-- Concrete instance of `cleanupOldLogs_frame`: a cleanup with one stale and
    one current directory only deletes the stale one. -/
theorem cleanupOldLogs_frame_witness :
    "ci-logs/abc1234" ∉
      cleanupOldLogs true [("abc1234", true), ("def5678", true)] "ci-logs" "abc1234deadbeef" false :=
  (cleanupOldLogs_frame true [("abc1234", true), ("def5678", true)] "ci-logs" "abc1234deadbeef" false).1

/-- C1: `upload` first validates the file; on failure it returns a
    `VALIDATION_ERROR` response and issues no GitHub API call.  When
    validation passes (and reading, encoding and the API call succeed) it
    issues exactly one Contents-API call carrying the generated path, the
    base64 content, the commit message and the configured branch, and returns
    `success = true` with the generated file name, path, URL and SHA. -/
theorem upload_contract :
    ∀ (config : AppConfig) (env : UploadEnv) (request : UploadRequest),
      ((validateFile config request.file).isValid = false →
        upload config env request =
          ({ success := false
             message := "Validierung fehlgeschlagen"
             data := none
             error := some
               { code := "VALIDATION_ERROR"
                 details := String.intercalate ", "
                   (((validateFile config request.file).errors).map (·.message)) } }, [])) ∧
      (∀ (f : JsFile) (bytes : List Nat) (resp : ContentsApiContent),
        request.file = some f →
        (validateFile config request.file).isValid = true →
        env.readFile = .ok bytes →
        env.b64Supported = true →
        env.api
          { owner := config.github.owner
            repo := config.github.repository
            path := config.github.uploadPath ++ "/" ++ generateFilename env.nowIso f.name
            message := "Upload: " ++ generateFilename env.nowIso f.name
            content := arrayBufferToBase64 bytes
            branch := config.github.branch } = .ok resp →
        upload config env request =
          ({ success := true
             message := "Spielbericht erfolgreich hochgeladen!"
             data := some
               { fileName := generateFilename env.nowIso f.name
                 filePath := config.github.uploadPath ++ "/" ++ generateFilename env.nowIso f.name
                 url := resp.htmlUrl.getD ""
                 sha := resp.sha.getD "" }
             error := none },
           [{ owner := config.github.owner
              repo := config.github.repository
              path := config.github.uploadPath ++ "/" ++ generateFilename env.nowIso f.name
              message := "Upload: " ++ generateFilename env.nowIso f.name
              content := arrayBufferToBase64 bytes
              branch := config.github.branch }])) := by
  intro config env request
  constructor
  · intro hv
    unfold upload
    dsimp only
    rw [hv]
    simp
  · intro f bytes resp hfile hv hread hb64 hapi
    unfold upload
    dsimp only
    rw [hv]
    simp only [Bool.true_eq_false, if_false]
    rw [hfile, hread]
    dsimp only
    rw [hb64]
    simp only [Bool.true_eq_false, if_false]
    unfold uploadFile
    dsimp only
    rw [hapi]

/-- Concrete instance of `upload_contract`: a request without a file yields a
    validation failure and no API call. -/
theorem upload_contract_witness :
    upload
      ⟨⟨"AppGates", "PongPush", "main", "uploads", some "t"⟩,
       ⟨10485760, [".png"], ["image/png"]⟩⟩
      ⟨.ok [], true, "2026-01-01T00:00:00.000Z", fun _ => .ok ⟨none, none, none⟩⟩
      ⟨none⟩ =
      ({ success := false
         message := "Validierung fehlgeschlagen"
         data := none
         error := some { code := "VALIDATION_ERROR", details := "Keine Datei ausgewählt" } }, []) := by
  have h := (upload_contract
    ⟨⟨"AppGates", "PongPush", "main", "uploads", some "t"⟩,
     ⟨10485760, [".png"], ["image/png"]⟩⟩
    ⟨.ok [], true, "2026-01-01T00:00:00.000Z", fun _ => .ok ⟨none, none, none⟩⟩
    ⟨none⟩).1 rfl
  exact h

/-- C9: `upload` always resolves with an `UploadResponse`: the response is a
    success, a `VALIDATION_ERROR` failure, or an `UPLOAD_ERROR` failure; and
    every error thrown after validation passes (file read, base64 support,
    GitHub API) is mapped to `success = false` with code `UPLOAD_ERROR`
    carrying the thrown error's message (or `Unbekannter Fehler` for an empty
    message) as details. -/
theorem upload_never_rejects :
    ∀ (config : AppConfig) (env : UploadEnv) (request : UploadRequest),
      ((upload config env request).1.success = true ∨
        ∃ err, (upload config env request).1.error = some err ∧
          (err.code = "VALIDATION_ERROR" ∨ err.code = "UPLOAD_ERROR")) ∧
      ((validateFile config request.file).isValid = true →
       (upload config env request).1.success = false →
       ∃ d, (upload config env request).1.error = some { code := "UPLOAD_ERROR", details := d } ∧
         ((∃ m, env.readFile = .error m ∧ d = errDetails m) ∨
          (env.b64Supported = false ∧ d = "Base64 encoding not supported in this environment") ∨
          (∃ args m, env.api args = .error m ∧ d = errDetails ("GitHub API error: " ++ m)))) := by
  intro config env request
  by_cases hv : (validateFile config request.file).isValid = true
  · rcases hfile : request.file with _ | f
    · rw [hfile] at hv
      simp [validateFile] at hv
    · constructor
      · unfold upload
        dsimp only
        rw [hv, hfile]
        simp only [Bool.true_eq_false, if_false]
        rcases hread : env.readFile with m | bytes
        · exact Or.inr ⟨_, rfl, Or.inr rfl⟩
        · dsimp only
          by_cases hb64 : env.b64Supported = false
          · rw [hb64]
            exact Or.inr ⟨_, rfl, Or.inr rfl⟩
          · rw [Bool.not_eq_false] at hb64
            rw [hb64]
            simp only [Bool.true_eq_false, if_false]
            unfold uploadFile
            dsimp only
            rcases env.api _ with m | resp
            · exact Or.inr ⟨_, rfl, Or.inr rfl⟩
            · exact Or.inl rfl
      · intro _ hfail
        unfold upload at hfail ⊢
        dsimp only at hfail ⊢
        rw [hv, hfile] at hfail ⊢
        simp only [Bool.true_eq_false, if_false] at hfail ⊢
        rcases hread : env.readFile with m | bytes
        · exact ⟨errDetails m, rfl, Or.inl ⟨m, rfl, rfl⟩⟩
        · rw [hread] at hfail
          dsimp only at hfail ⊢
          by_cases hb64 : env.b64Supported = false
          · rw [hb64] at hfail ⊢
            exact ⟨_, rfl, Or.inr (Or.inl ⟨rfl, rfl⟩)⟩
          · rw [Bool.not_eq_false] at hb64
            rw [hb64] at hfail ⊢
            simp only [Bool.true_eq_false, if_false] at hfail ⊢
            unfold uploadFile at hfail ⊢
            dsimp only at hfail ⊢
            rcases hapi : env.api
                { owner := config.github.owner
                  repo := config.github.repository
                  path := config.github.uploadPath ++ "/" ++ generateFilename env.nowIso f.name
                  message := "Upload: " ++ generateFilename env.nowIso f.name
                  content := arrayBufferToBase64 bytes
                  branch := config.github.branch } with m | resp
            · exact ⟨_, rfl, Or.inr (Or.inr ⟨_, m, hapi, rfl⟩)⟩
            · rw [hapi] at hfail
              simp at hfail
  · rw [Bool.not_eq_true] at hv
    constructor
    · unfold upload
      dsimp only
      rw [hv]
      simp only [if_true]
      exact Or.inr ⟨_, rfl, Or.inl rfl⟩
    · intro hv' _
      rw [hv'] at hv
      cases hv

/-- Concrete instance of `upload_never_rejects`: a throwing GitHub API call is
    mapped to an `UPLOAD_ERROR` response. -/
theorem upload_never_rejects_witness :
    (validateFile
        ⟨⟨"AppGates", "PongPush", "main", "uploads", some "t"⟩,
         ⟨10485760, [".png"], ["image/png"]⟩⟩
        (some ⟨"a.png", 5, "image/png"⟩)).isValid = true ∧
    ∃ d, (upload
        ⟨⟨"AppGates", "PongPush", "main", "uploads", some "t"⟩,
         ⟨10485760, [".png"], ["image/png"]⟩⟩
        ⟨.ok [1, 2, 3], true, "2026-01-01T00:00:00.000Z", fun _ => .error "boom"⟩
        ⟨some ⟨"a.png", 5, "image/png"⟩⟩).1.error =
      some { code := "UPLOAD_ERROR", details := d } := by
  have h := (upload_never_rejects
    ⟨⟨"AppGates", "PongPush", "main", "uploads", some "t"⟩,
     ⟨10485760, [".png"], ["image/png"]⟩⟩
    ⟨.ok [1, 2, 3], true, "2026-01-01T00:00:00.000Z", fun _ => .error "boom"⟩
    ⟨some ⟨"a.png", 5, "image/png"⟩⟩).2 rfl rfl
  exact ⟨rfl, h.imp (fun d hd => hd.1)⟩

end PongPush
